import Mathlib

/-!
Verification of the pretix per-event booking lock and invalidation cache
(src/pretix/base/models/event.py) against its specification.

The `Event` model, its `save`/`clean`/`get_plugins`/presale properties, its
`copy_data_from` bulk copy and the `EventLock` row type are embedded from the
source. The lock-manager service (`pretix.base.services.locking`) and the
`ObjectRelatedCache` class are referenced by the source but their code is not
part of this excerpt; their behaviour is modelled from the specification, and
each such definition is marked `Modelled from the spec:`.
-/

namespace Pretix

/-! ## Scoped cache model -/

/-- Modelled from the spec: the scoped key/value cache. Keys are implicitly
prefixed by the owning entity's namespace (here the event's primary key), so a
cache is a map from (namespace, key) to an optional cached value. The
`ObjectRelatedCache` class itself is not part of this excerpt. -/
def Cache : Type := Nat → String → Option String

/-- Reading a key inside an event's namespace. -/
def cacheGet (c : Cache) (ns : Nat) (k : String) : Option String := c ns k

/-- Modelled from the spec: clearing one entity's namespace drops every entry
of that namespace and no entry of any other namespace. -/
def clearNamespace (ns : Nat) (c : Cache) : Cache :=
  fun n k => if n = ns then none else c n k

/-- The fields of the `Event` model relevant to the claims: primary key,
`plugins` (nullable comma-separated text), the presale window and the event
date range (all nullable except `date_from` in the database schema, but
`clean` runs before validation so every field may still be unset). Strings are
embedded as lists of characters, datetimes as integers. -/
structure Event where
  pk : Nat
  plugins : Option (List Char)
  presale_start : Option Int
  presale_end : Option Int
  date_from : Option Int
  date_to : Option Int
  deriving DecidableEq

/-- Embeds `Event.save`: persist the row, then `self.get_cache().clear()`,
which clears exactly the event's own cache namespace. -/
def eventSave (e : Event) (c : Cache) : Cache :=
  clearNamespace e.pk c

/-- Modelled from the spec: saving a related object the event logically owns
(category, item, variation, add-on, quota, question, option, settings row)
clears the owning event's cache namespace; the related models' `save` code is
not part of this excerpt. -/
def relatedObjectSave (owner : Nat) (c : Cache) : Cache :=
  clearNamespace owner c

/-- Embeds the cache-relevant effect of `Event.copy_data_from`: the
destination copies the `plugins` field, calls `self.save()` (clearing its own
namespace), then saves each copied related object attached to itself; the
source event is only read, never saved. `relatedObjects` stands for the list
of related rows copied from the source. -/
def copy_data_from (self other : Event) (relatedObjects : List Nat) (c : Cache) :
    Event × Cache :=
  let self2 : Event := { self with plugins := other.plugins }
  let c1 := eventSave self2 c
  let c2 := relatedObjects.foldl (fun acc _ => relatedObjectSave self2.pk acc) c1
  (self2, c2)

/-! ## get_plugins -/

/-- Embeds Python `str.split` with a one-character separator (never returns
the empty list; splitting the empty string yields one empty field), as used by
`Event.get_plugins` via `self.plugins.split(",")`. -/
def pySplit (sep : Char) : List Char → List (List Char)
  | [] => [[]]
  | c :: rest =>
    if c = sep then [] :: pySplit sep rest
    else
      match pySplit sep rest with
      | [] => [[c]]
      | g :: gs => (c :: g) :: gs

/-- Embeds `Event.get_plugins`: `[]` when the `plugins` field is NULL,
otherwise the field split on commas. -/
def get_plugins (e : Event) : List (List Char) :=
  match e.plugins with
  | none => []
  | some s => pySplit ',' s

/-! ## Presale window -/

/-- Embeds the `Event.presale_has_ended` property at current time `tnow`:
true when `presale_end` is set and now is strictly after it. -/
def presale_has_ended (e : Event) (tnow : Int) : Bool :=
  match e.presale_end with
  | some pe => decide (pe < tnow)
  | none => false

/-- Embeds the `Event.presale_is_running` property at current time `tnow`:
false when `presale_start` is set and now is strictly before it, false when
`presale_end` is set and now is strictly after it, true otherwise. -/
def presale_is_running (e : Event) (tnow : Int) : Bool :=
  if (match e.presale_start with
      | some ps => decide (tnow < ps)
      | none => false) then false
  else if (match e.presale_end with
      | some pe => decide (pe < tnow)
      | none => false) then false
  else true

/-! ## clean -/

/-- The field a `ValidationError` raised by `Event.clean` is attached to. -/
inductive ValidationErrorField where
  | presale_end_field : ValidationErrorField
  | date_to_field : ValidationErrorField
  deriving DecidableEq

/-- Embeds `Event.clean`: raises on `presale_start > presale_end` (both set),
then on `date_from > date_to` (both set); otherwise returns the event
unchanged (the Django base `clean` is a no-op). -/
def clean (e : Event) : Except ValidationErrorField Event :=
  if (match e.presale_start, e.presale_end with
      | some ps, some pe => decide (pe < ps)
      | _, _ => false) then Except.error ValidationErrorField.presale_end_field
  else if (match e.date_from, e.date_to with
      | some df, some dt => decide (dt < df)
      | _, _ => false) then Except.error ValidationErrorField.date_to_field
  else Except.ok e

/-! ## Lock record store -/

/-- Embeds the `EventLock` model: `event` is the primary key (a char field of
up to 36 characters), `date` an auto-updated freshness timestamp, `token` an
opaque ownership token (a UUID, embedded as a natural number). -/
structure EventLock where
  event : String
  date : Nat
  token : Nat
  deriving DecidableEq

/-- Storage-layer error on a constraint-violating write. -/
inductive DBError where
  | uniqueViolation : DBError
  deriving DecidableEq

/-- Modelled from the spec: the relational store's insert of a new lock row.
`event` is the primary key, so inserting a row whose key already exists fails
at the storage layer with a constraint violation; the storage engine itself is
an external collaborator of the excerpted code. -/
def insertLock (db : List EventLock) (r : EventLock) : Except DBError (List EventLock) :=
  if db.any (fun s => s.event == r.event) then Except.error DBError.uniqueViolation
  else Except.ok (r :: db)

/-- A lock table is well keyed when no two rows share an `event` id. -/
def uniqueKeys (db : List EventLock) : Prop :=
  db.Pairwise (fun a b => a.event ≠ b.event)

/-! ## Lock manager transition system

Modelled from the spec: the lock manager service (`pretix.base.services.
locking`, not part of this excerpt) coordinates concurrent acquirers of one
entity's lock through atomic compare-and-set operations on the single lock
row. The system below interleaves any number of processes against one
entity's row: time advances, an idle process acquires when the row is absent,
unowned or stale, a holder refreshes or releases by compare-and-set on its
own token. Fresh opaque tokens are modelled by a counter (`nextTok`), and
`issued` records every token ever handed out, newest first. -/

/-- The single lock row for the entity: current owner token (none when
released) and the `last_refreshed` timestamp. -/
structure LockRow where
  owner : Option Nat
  last : Nat
  deriving DecidableEq

/-- Local state of one acquiring process: idle, holding the lock with its
token and the timestamp of its own last successful refresh, or released. -/
inductive ProcState where
  | idle : ProcState
  | holding : Nat → Nat → ProcState
  | released : ProcState
  deriving DecidableEq

/-- Global state: the shared lock row, each process's local state, the
current time, the lease duration, the fresh-token counter and the history of
issued tokens. -/
structure LockSys where
  row : Option LockRow
  procs : Nat → ProcState
  tnow : Nat
  lease : Nat
  nextTok : Nat
  issued : List Nat

/-- Pointwise update of the process map. -/
def setProc (f : Nat → ProcState) (p : Nat) (s : ProcState) : Nat → ProcState :=
  fun q => if q = p then s else f q

/-- Initial state: no row yet (rows are created lazily), every process idle. -/
def lockInit (lease : Nat) : LockSys :=
  { row := none
    procs := fun _ => ProcState.idle
    tnow := 0
    lease := lease
    nextTok := 0
    issued := [] }

/-- Modelled from the spec: one interleaved step of the lock system. An
acquisition succeeds only when the compare-and-set finds the row absent,
unowned, or stale (`last + lease < now`), and installs a fresh token; refresh
and release are compare-and-set against the holder's own token, so a release
after a stale takeover is a no-op. -/
inductive Step : LockSys → LockSys → Prop where
  | tick (s : LockSys) (d : Nat) :
      Step s { s with tnow := s.tnow + d }
  | acquire (s : LockSys) (p : Nat)
      (hidle : s.procs p = ProcState.idle)
      (hfree : s.row = none ∨ ∃ r, s.row = some r ∧
        (r.owner = none ∨ r.last + s.lease < s.tnow)) :
      Step s { s with
        row := some { owner := some s.nextTok, last := s.tnow }
        procs := setProc s.procs p (ProcState.holding s.nextTok s.tnow)
        nextTok := s.nextTok + 1
        issued := s.nextTok :: s.issued }
  | refreshOk (s : LockSys) (p t lastR : Nat) (r : LockRow)
      (hp : s.procs p = ProcState.holding t lastR)
      (hr : s.row = some r) (hown : r.owner = some t) :
      Step s { s with
        row := some { owner := some t, last := s.tnow }
        procs := setProc s.procs p (ProcState.holding t s.tnow) }
  | releaseOk (s : LockSys) (p t lastR : Nat) (r : LockRow)
      (hp : s.procs p = ProcState.holding t lastR)
      (hr : s.row = some r) (hown : r.owner = some t) :
      Step s { s with
        row := some { owner := none, last := r.last }
        procs := setProc s.procs p ProcState.released }
  | releaseNoop (s : LockSys) (p t lastR : Nat)
      (hp : s.procs p = ProcState.holding t lastR)
      (hmiss : ∀ r, s.row = some r → r.owner ≠ some t) :
      Step s { s with procs := setProc s.procs p ProcState.released }

/-- States reachable from the initial state by interleaved steps. -/
inductive Reachable (lease : Nat) : LockSys → Prop where
  | init : Reachable lease (lockInit lease)
  | step (s s2 : LockSys) : Reachable lease s → Step s s2 → Reachable lease s2

/-- A process holds a live `ScopedLock`: it acquired the lock, has neither
released it nor seen it expire (its own last refresh is within the lease). -/
def live (s : LockSys) (p : Nat) : Prop :=
  ∃ t lastR, s.procs p = ProcState.holding t lastR ∧ s.tnow ≤ lastR + s.lease

/-- Inductive invariant of the lock system: holding tokens are below the
fresh-token counter, distinct processes hold distinct tokens, a holder that
is not lease-expired still owns the row with its own refresh timestamp, and
the token history has no duplicate and stays below the counter. -/
def Inv (s : LockSys) : Prop :=
  (∀ p t lastR, s.procs p = ProcState.holding t lastR → t < s.nextTok) ∧
  (∀ p q tp lp tq lq, p ≠ q → s.procs p = ProcState.holding tp lp →
      s.procs q = ProcState.holding tq lq → tp ≠ tq) ∧
  (∀ p t lastR, s.procs p = ProcState.holding t lastR → s.tnow ≤ lastR + s.lease →
      s.row = some { owner := some t, last := lastR }) ∧
  s.issued.Nodup ∧
  (∀ t, t ∈ s.issued → t < s.nextTok)

/-! ## Acquisition retry loop -/

/-- The typed error taxonomy of lock acquisition. -/
inductive LockError where
  | lockTimeout : LockError
  deriving DecidableEq

/-- The scoped-lock handle returned by a successful acquisition. -/
structure ScopedLock where
  acquiredAt : Nat
  deriving DecidableEq

/-- Modelled from the spec: the acquire retry loop of the lock manager (the
`locking` service is not part of this excerpt). At time `t` it attempts the
compare-and-set (`busy t = false` means no other live owner held the lock at
that attempt); on failure it sleeps a bounded jittered delay (between 1 and
`maxBackoff + 1` time units, drawn from the `jitter` stream) and retries,
unless `timeoutAt` has already elapsed, in which case it fails with the typed
`LockError.lockTimeout`. -/
def acquireLoop (busy : Nat → Bool) (jitter : Nat → Nat) (maxBackoff timeoutAt : Nat)
    (n t : Nat) : Except LockError ScopedLock :=
  if busy t = false then Except.ok { acquiredAt := t }
  else if timeoutAt ≤ t then Except.error LockError.lockTimeout
  else acquireLoop busy jitter maxBackoff timeoutAt (n + 1)
    (t + (jitter n % (maxBackoff + 1) + 1))
termination_by timeoutAt - t
decreasing_by
  simp only [not_le] at *
  omega

/-! ## Concrete states used by witnesses -/

/-- A concrete event with primary key 0. -/
def eventA : Event :=
  { pk := 0, plugins := none, presale_start := none, presale_end := none,
    date_from := none, date_to := none }

/-- A concrete event with primary key 1. -/
def eventB : Event :=
  { pk := 1, plugins := none, presale_start := none, presale_end := none,
    date_from := none, date_to := none }

/-- A cache with every namespace fully populated. -/
def demoCache : Cache := fun _ _ => some "v"

/-- State after process 0 acquires the lock from the initial state. -/
def lockStateOne : LockSys :=
  { lockInit 5 with
    row := some { owner := some (lockInit 5).nextTok, last := (lockInit 5).tnow }
    procs := setProc (lockInit 5).procs 0
      (ProcState.holding (lockInit 5).nextTok (lockInit 5).tnow)
    nextTok := (lockInit 5).nextTok + 1
    issued := (lockInit 5).nextTok :: (lockInit 5).issued }

/-- State after 6 time units pass, so process 0's lease (5) has expired. -/
def lockStateTwo : LockSys :=
  { lockStateOne with tnow := lockStateOne.tnow + 6 }

/-- State after process 1 performs a stale takeover of the reused row. -/
def lockStateThree : LockSys :=
  { lockStateTwo with
    row := some { owner := some lockStateTwo.nextTok, last := lockStateTwo.tnow }
    procs := setProc lockStateTwo.procs 1
      (ProcState.holding lockStateTwo.nextTok lockStateTwo.tnow)
    nextTok := lockStateTwo.nextTok + 1
    issued := lockStateTwo.nextTok :: lockStateTwo.issued }

/-! ## Helper lemmas -/

theorem pySplit_ne_nil (sep : Char) (s : List Char) : pySplit sep s ≠ [] := by
  cases s with
  | nil => simp [pySplit]
  | cons c rest =>
    simp only [pySplit]
    split
    · simp
    · split
      · simp
      · simp

theorem pySplit_no_sep (sep : Char) (s : List Char) (h : ∀ ch ∈ s, ch ≠ sep) :
    pySplit sep s = [s] := by
  induction s with
  | nil => simp [pySplit]
  | cons c rest ih =>
    have hc : c ≠ sep := h c (by simp)
    have hr : ∀ ch ∈ rest, ch ≠ sep := fun ch hm => h ch (by simp [hm])
    rw [pySplit, if_neg hc, ih hr]

theorem relatedFold_preserves_none (owner : Nat) (rel : List Nat) :
    ∀ c : Cache, ∀ k, c owner k = none →
      (rel.foldl (fun acc _ => relatedObjectSave owner acc) c) owner k = none := by
  induction rel with
  | nil => intro c k h; simpa using h
  | cons x xs ih =>
    intro c k h
    simp only [List.foldl_cons]
    exact ih _ k (by simp [relatedObjectSave, clearNamespace])

theorem relatedFold_other (owner n : Nat) (rel : List Nat) (hn : n ≠ owner) :
    ∀ c : Cache, ∀ k,
      (rel.foldl (fun acc _ => relatedObjectSave owner acc) c) n k = c n k := by
  induction rel with
  | nil => intro c k; simp
  | cons x xs ih =>
    intro c k
    simp only [List.foldl_cons]
    rw [ih]
    simp [relatedObjectSave, clearNamespace, hn]

/-! ## Claim theorems -/

/-- C2: saving event `a` synchronously clears every entry of `a`'s own cache
namespace (every subsequent get in `a`'s namespace misses) and leaves every
entry of any distinct event `b`'s namespace unchanged. -/
theorem save_clears_own_namespace_only (a b : Event) (c : Cache) (k k2 : String)
    (hab : a.pk ≠ b.pk) :
    cacheGet (eventSave a c) a.pk k = none ∧
    cacheGet (eventSave a c) b.pk k2 = c b.pk k2 := by
  constructor
  · simp [cacheGet, eventSave, clearNamespace]
  · simp [cacheGet, eventSave, clearNamespace, Ne.symm hab]

theorem save_clears_own_namespace_only_witness :
    cacheGet (eventSave eventA demoCache) eventA.pk "k" = none ∧
    cacheGet (eventSave eventA demoCache) eventB.pk "k" = demoCache eventB.pk "k" :=
  save_clears_own_namespace_only eventA eventB demoCache "k" "k" (by decide)

/-- C3: `dest.copy_data_from(source)` clears `dest`'s cache namespace
(through `dest`'s own save) and never clears `source`'s namespace: every
cache entry of `source` present before the call is still present after it. -/
theorem copy_data_from_clears_dest_not_source (dest source : Event)
    (rel : List Nat) (c : Cache) (k k2 : String) (hds : dest.pk ≠ source.pk) :
    cacheGet (copy_data_from dest source rel c).2 dest.pk k = none ∧
    cacheGet (copy_data_from dest source rel c).2 source.pk k2 = c source.pk k2 := by
  constructor
  · exact relatedFold_preserves_none dest.pk rel _ k
      (by simp [eventSave, clearNamespace])
  · rw [copy_data_from]
    simp only [cacheGet]
    rw [relatedFold_other dest.pk source.pk rel (Ne.symm hds)]
    simp [eventSave, clearNamespace, Ne.symm hds]

theorem copy_data_from_clears_dest_not_source_witness :
    cacheGet (copy_data_from eventA eventB [7] demoCache).2 eventA.pk "k" = none ∧
    cacheGet (copy_data_from eventA eventB [7] demoCache).2 eventB.pk "k"
      = demoCache eventB.pk "k" :=
  copy_data_from_clears_dest_not_source eventA eventB [7] demoCache "k" "k" (by decide)

/-- C4: saving persisted state the event logically owns — including a related
object (item, quota, question, ...) — clears the event's cache namespace
automatically, and after `copy_data_from` the destination event's namespace
holds no entry at all, in particular none computed before the migrated
related objects were saved. -/
theorem owned_state_save_invalidates (owner : Nat) (dest source : Event)
    (rel : List Nat) (c c2 : Cache) (k k2 : String) :
    cacheGet (relatedObjectSave owner c2) owner k2 = none ∧
    cacheGet (copy_data_from dest source rel c).2 dest.pk k = none := by
  constructor
  · simp [cacheGet, relatedObjectSave, clearNamespace]
  · exact relatedFold_preserves_none dest.pk rel _ k
      (by simp [eventSave, clearNamespace])

/-- C5: the lock store holds at most one row per entity: inserting a fresh
row preserves key uniqueness, and a second creation for an `event` id already
present fails at the storage layer with a constraint violation. Each row
carries the `date` freshness timestamp and the `token` ownership token by
construction of `EventLock`. -/
theorem eventLock_primary_key_unique (db : List EventLock) (r : EventLock) :
    (∀ db2, insertLock db r = Except.ok db2 → uniqueKeys db → uniqueKeys db2) ∧
    (∀ db2 r2, insertLock db r = Except.ok db2 → r2.event = r.event →
      insertLock db2 r2 = Except.error DBError.uniqueViolation) := by
  constructor
  · intro db2 hok hu
    rw [insertLock] at hok
    split at hok
    · cases hok
    · cases hok
      rename_i hany
      refine List.Pairwise.cons ?_ hu
      intro b hb hrb
      exact hany (List.any_eq_true.mpr ⟨b, hb, by simp [hrb]⟩)
  · intro db2 r2 hok hev
    rw [insertLock] at hok
    split at hok
    · cases hok
    · cases hok
      rw [insertLock, if_pos]
      exact List.any_eq_true.mpr ⟨r, by simp [hev]⟩

theorem eventLock_primary_key_unique_witness :
    insertLock [{ event := "evt-1", date := 0, token := 0 }]
        { event := "evt-1", date := 1, token := 1 }
      = Except.error DBError.uniqueViolation :=
  (eventLock_primary_key_unique [] { event := "evt-1", date := 0, token := 0 }).2
    [{ event := "evt-1", date := 0, token := 0 }]
    { event := "evt-1", date := 1, token := 1 } (by simp [insertLock]) rfl

/-- C8: `get_plugins` returns `[]` exactly when the `plugins` field is NULL;
an empty-string field yields the one-element list containing the empty
string, and any value without commas yields the singleton list of itself. -/
theorem get_plugins_spec (e : Event) :
    (get_plugins e = [] ↔ e.plugins = none) ∧
    (e.plugins = some [] → get_plugins e = [[]]) ∧
    (∀ s, e.plugins = some s → (∀ ch ∈ s, ch ≠ ',') → get_plugins e = [s]) := by
  refine ⟨⟨?_, ?_⟩, ?_, ?_⟩
  · intro h
    rw [get_plugins] at h
    cases hp : e.plugins with
    | none => rfl
    | some s => rw [hp] at h; exact absurd h (pySplit_ne_nil ',' s)
  · intro h; rw [get_plugins, h]
  · intro h; rw [get_plugins, h]; rfl
  · intro s hs hns
    rw [get_plugins, hs]
    exact pySplit_no_sep ',' s hns

theorem get_plugins_spec_witness :
    get_plugins { eventA with plugins := some [] } = [[]] :=
  (get_plugins_spec { eventA with plugins := some [] }).2.1 rfl

/-- C9: `presale_has_ended` is true exactly when `presale_end` is set and the
current time is strictly after it; whenever it is true, `presale_is_running`
is false; and with neither presale bound set, `presale_is_running` is true
and `presale_has_ended` is false. -/
theorem presale_flags_spec (e : Event) (tnow : Int) :
    (presale_has_ended e tnow = true ↔
      ∃ pe, e.presale_end = some pe ∧ pe < tnow) ∧
    (presale_has_ended e tnow = true → presale_is_running e tnow = false) ∧
    (e.presale_start = none → e.presale_end = none →
      presale_is_running e tnow = true ∧ presale_has_ended e tnow = false) := by
  refine ⟨⟨?_, ?_⟩, ?_, ?_⟩
  · intro h
    rw [presale_has_ended] at h
    cases hpe : e.presale_end with
    | none => rw [hpe] at h; cases h
    | some pe =>
      rw [hpe] at h
      exact ⟨pe, rfl, of_decide_eq_true h⟩
  · rintro ⟨pe, hpe, hlt⟩
    rw [presale_has_ended, hpe]
    exact decide_eq_true hlt
  · intro h
    rw [presale_has_ended] at h
    rw [presale_is_running]
    cases hpe : e.presale_end with
    | none => rw [hpe] at h; cases h
    | some pe =>
      rw [hpe] at h
      by_cases hs1 : (match e.presale_start with
          | some ps => decide (tnow < ps)
          | none => false) = true
      · rw [if_pos hs1]
      · rw [if_neg hs1, if_pos h]
  · intro hps hpe
    rw [presale_is_running, presale_has_ended, hps, hpe]
    exact ⟨rfl, rfl⟩

theorem presale_flags_spec_witness :
    presale_is_running eventA 3 = true ∧ presale_has_ended eventA 3 = false :=
  (presale_flags_spec eventA 3).2.2 rfl rfl

/-- C10: `clean` succeeds (returning the event unchanged) exactly when it is
not the case that both presale bounds are set with start strictly after end,
nor both event dates set with start strictly after end; it raises a
`ValidationError` exactly when one of those two conditions holds; and it
never modifies the event. -/
theorem clean_spec (e : Event) :
    (clean e = Except.ok e ↔
      ¬ ((∃ ps pe, e.presale_start = some ps ∧ e.presale_end = some pe ∧ pe < ps) ∨
         (∃ df dt, e.date_from = some df ∧ e.date_to = some dt ∧ dt < df))) ∧
    ((∃ f, clean e = Except.error f) ↔
      ((∃ ps pe, e.presale_start = some ps ∧ e.presale_end = some pe ∧ pe < ps) ∨
       (∃ df dt, e.date_from = some df ∧ e.date_to = some dt ∧ dt < df))) ∧
    (∀ e2, clean e = Except.ok e2 → e2 = e) := by
  have hiff1 : (match e.presale_start, e.presale_end with
      | some ps, some pe => decide (pe < ps)
      | _, _ => false) = true ↔
      (∃ ps pe, e.presale_start = some ps ∧ e.presale_end = some pe ∧ pe < ps) := by
    cases hps : e.presale_start with
    | none => simp
    | some ps =>
      cases hpe : e.presale_end with
      | none => simp
      | some pe => simp
  have hiff2 : (match e.date_from, e.date_to with
      | some df, some dt => decide (dt < df)
      | _, _ => false) = true ↔
      (∃ df dt, e.date_from = some df ∧ e.date_to = some dt ∧ dt < df) := by
    cases hdf : e.date_from with
    | none => simp
    | some df =>
      cases hdt : e.date_to with
      | none => simp
      | some dt => simp
  rw [clean]
  refine ⟨⟨?_, ?_⟩, ⟨?_, ?_⟩, ?_⟩
  · intro h
    split at h
    · cases h
    · split at h
      · cases h
      · rename_i h1 h2
        rw [← hiff1, ← hiff2]
        simp [h1, h2]
  · intro h
    rw [← hiff1, ← hiff2] at h
    rw [if_neg (fun hc => h (Or.inl hc)), if_neg (fun hc => h (Or.inr hc))]
  · rintro ⟨f, hf⟩
    split at hf
    · rename_i h1; exact Or.inl (hiff1.mp h1)
    · split at hf
      · rename_i h2; exact Or.inr (hiff2.mp h2)
      · cases hf
  · intro h
    split
    · exact ⟨ValidationErrorField.presale_end_field, rfl⟩
    · split
      · exact ⟨ValidationErrorField.date_to_field, rfl⟩
      · rename_i h1 h2
        rw [← hiff1] at h
        rw [← hiff2] at h
        rcases h with h | h
        · exact absurd h h1
        · exact absurd h h2
  · intro e2 h
    split at h
    · cases h
    · split at h
      · cases h
      · cases h; rfl

theorem clean_spec_witness :
    clean { eventA with presale_start := some 9, presale_end := some 2 }
      = Except.error ValidationErrorField.presale_end_field := by
  obtain ⟨f, hf⟩ :=
    (clean_spec { eventA with presale_start := some 9, presale_end := some 2 }).2.1.mpr
      (Or.inl ⟨9, 2, rfl, rfl, by norm_num⟩)
  cases f with
  | presale_end_field => exact hf
  | date_to_field =>
    rw [clean] at hf
    simp [eventA] at hf

/-! ## Lock system invariant -/

theorem inv_init (lease : Nat) : Inv (lockInit lease) := by
  refine ⟨?_, ?_, ?_, ?_, ?_⟩
  · intro p t lastR h; cases h
  · intro a b ta la tb lb hab ha hb; cases ha
  · intro p t lastR h hle; cases h
  · exact List.nodup_nil
  · intro t hm; cases hm

theorem inv_step (s s2 : LockSys) (hstep : Step s s2) (hinv : Inv s) : Inv s2 := by
  obtain ⟨h1, h2, h3, h4, h5⟩ := hinv
  cases hstep with
  | tick d =>
    refine ⟨h1, h2, ?_, h4, h5⟩
    intro p t lastR hp hle
    dsimp only at hle
    exact h3 p t lastR hp (by omega)
  | acquire p hidle hfree =>
    have hnolive : ∀ q tq lq, s.procs q = ProcState.holding tq lq →
        ¬ s.tnow ≤ lq + s.lease := by
      intro q tq lq hq hle
      have hrow := h3 q tq lq hq hle
      rcases hfree with hnone | ⟨r, hr, hcase⟩
      · rw [hrow] at hnone; cases hnone
      · rw [hrow] at hr
        injection hr with hr
        rcases hcase with hro | hstale
        · rw [← hr] at hro; cases hro
        · rw [← hr] at hstale
          simp at hstale
          omega
    refine ⟨?_, ?_, ?_, ?_, ?_⟩
    · intro q t2 l2 hq
      simp only [setProc] at hq
      split at hq
      · cases hq; exact Nat.lt_succ_self _
      · exact Nat.lt_succ_of_lt (h1 q t2 l2 hq)
    · intro a b ta la tb lb hab ha hb
      simp only [setProc] at ha hb
      split at ha
      · split at hb
        · rename_i hA hB
          exact absurd (hA.trans hB.symm) hab
        · cases ha
          have := h1 b tb lb hb
          omega
      · split at hb
        · cases hb
          have := h1 a ta la ha
          omega
        · exact h2 a b ta la tb lb hab ha hb
    · intro q t2 l2 hq hle
      simp only [setProc] at hq
      split at hq
      · cases hq; rfl
      · exact absurd hle (hnolive q t2 l2 hq)
    · exact List.nodup_cons.mpr ⟨fun hm => absurd (h5 _ hm) (Nat.lt_irrefl _), h4⟩
    · intro t2 hm
      rcases List.mem_cons.mp hm with h | h
      · subst h; exact Nat.lt_succ_self _
      · exact Nat.lt_succ_of_lt (h5 t2 h)
  | refreshOk p t lastR r hp hr hown =>
    refine ⟨?_, ?_, ?_, h4, h5⟩
    · intro q t2 l2 hq
      simp only [setProc] at hq
      split at hq
      · cases hq; exact h1 p t lastR hp
      · exact h1 q t2 l2 hq
    · intro a b ta la tb lb hab ha hb
      simp only [setProc] at ha hb
      split at ha
      · split at hb
        · rename_i hA hB
          exact absurd (hA.trans hB.symm) hab
        · rename_i hA hB
          cases ha
          exact h2 a b t lastR tb lb hab (hA ▸ hp) hb
      · split at hb
        · rename_i hA hB
          cases hb
          exact h2 a b ta la t lastR hab ha (hB ▸ hp)
        · exact h2 a b ta la tb lb hab ha hb
    · intro q t2 l2 hq hle
      simp only [setProc] at hq
      split at hq
      · cases hq; rfl
      · rename_i hqp
        have hrow := h3 q t2 l2 hq hle
        rw [hr] at hrow
        injection hrow with hrow
        rw [hrow] at hown
        simp at hown
        exact absurd hown (h2 q p t2 l2 t lastR hqp hq hp)
  | releaseOk p t lastR r hp hr hown =>
    refine ⟨?_, ?_, ?_, h4, h5⟩
    · intro q t2 l2 hq
      simp only [setProc] at hq
      split at hq
      · cases hq
      · exact h1 q t2 l2 hq
    · intro a b ta la tb lb hab ha hb
      simp only [setProc] at ha hb
      split at ha
      · cases ha
      · split at hb
        · cases hb
        · exact h2 a b ta la tb lb hab ha hb
    · intro q t2 l2 hq hle
      simp only [setProc] at hq
      split at hq
      · cases hq
      · rename_i hqp
        have hrow := h3 q t2 l2 hq hle
        rw [hr] at hrow
        injection hrow with hrow
        rw [hrow] at hown
        simp at hown
        exact absurd hown (h2 q p t2 l2 t lastR hqp hq hp)
  | releaseNoop p t lastR hp hmiss =>
    refine ⟨?_, ?_, ?_, h4, h5⟩
    · intro q t2 l2 hq
      simp only [setProc] at hq
      split at hq
      · cases hq
      · exact h1 q t2 l2 hq
    · intro a b ta la tb lb hab ha hb
      simp only [setProc] at ha hb
      split at ha
      · cases ha
      · split at hb
        · cases hb
        · exact h2 a b ta la tb lb hab ha hb
    · intro q t2 l2 hq hle
      simp only [setProc] at hq
      split at hq
      · cases hq
      · exact h3 q t2 l2 hq hle

theorem inv_reachable (lease : Nat) (s : LockSys) (h : Reachable lease s) : Inv s := by
  induction h with
  | init => exact inv_init lease
  | step s1 s2 hreach hstep ih => exact inv_step s1 s2 hstep ih

theorem lockStateOne_reachable : Reachable 5 lockStateOne :=
  Reachable.step _ _ Reachable.init (Step.acquire (lockInit 5) 0 rfl (Or.inl rfl))

theorem lockStateTwo_reachable : Reachable 5 lockStateTwo :=
  Reachable.step _ _ lockStateOne_reachable (Step.tick lockStateOne 6)

theorem lockStateThree_reachable : Reachable 5 lockStateThree :=
  Reachable.step _ _ lockStateTwo_reachable
    (Step.acquire lockStateTwo 1 (by decide)
      (Or.inr ⟨{ owner := some 0, last := 0 }, by decide, Or.inr (by decide)⟩))

/-- C1: in every reachable state of the lock system — all interleavings of
concurrent acquire, refresh and release compare-and-set operations on the
entity's lock record — at most one process holds a live `ScopedLock`
(acquired, not released, not lease-expired): any two live holders are the
same process. Exclusion comes from the atomic compare-and-set against the
row's owner token and freshness timestamp, not from in-process locks. -/
theorem lock_mutual_exclusion (lease : Nat) (s : LockSys) (hs : Reachable lease s)
    (p q : Nat) (hp : live s p) (hq : live s q) : p = q := by
  obtain ⟨h1, h2, h3, h4, h5⟩ := inv_reachable lease s hs
  obtain ⟨tp, lp, hpp, hple⟩ := hp
  obtain ⟨tq, lq, hqq, hqle⟩ := hq
  by_contra hne
  have hrp := h3 p tp lp hpp hple
  have hrq := h3 q tq lq hqq hqle
  rw [hrp] at hrq
  simp only [Option.some.injEq, LockRow.mk.injEq] at hrq
  exact h2 p q tp lp tq lq hne hpp hqq hrq.1

theorem lock_mutual_exclusion_witness : 0 = 0 :=
  lock_mutual_exclusion 5 lockStateOne lockStateOne_reachable 0 0
    ⟨0, 0, by decide, by decide⟩ ⟨0, 0, by decide, by decide⟩

/-- C6: every acquisition regenerates the owner token to a fresh value: in
every reachable state the full history of issued owner tokens has no
duplicate, so two successive distinct acquisitions of the entity's lock —
including a stale takeover of the reused row — always observe different
owner tokens. -/
theorem acquisition_tokens_distinct (lease : Nat) (s : LockSys)
    (hs : Reachable lease s) : s.issued.Nodup :=
  (inv_reachable lease s hs).2.2.2.1

theorem acquisition_tokens_distinct_witness : lockStateThree.issued.Nodup :=
  acquisition_tokens_distinct 5 lockStateThree lockStateThree_reachable

theorem acquireLoop_always_busy (busy : Nat → Bool) (jitter : Nat → Nat)
    (maxBackoff timeoutAt : Nat) (hb : ∀ u, busy u = true) :
    ∀ k n t, timeoutAt - t ≤ k →
      acquireLoop busy jitter maxBackoff timeoutAt n t
        = Except.error LockError.lockTimeout := by
  intro k
  induction k with
  | zero =>
    intro n t hk
    rw [acquireLoop]
    rw [if_neg (by simp [hb t]), if_pos (by omega)]
  | succ k ih =>
    intro n t hk
    rw [acquireLoop]
    rw [if_neg (by simp [hb t])]
    by_cases ht : timeoutAt ≤ t
    · rw [if_pos ht]
    · rw [if_neg ht]
      exact ih (n + 1) _ (by generalize jitter n % (maxBackoff + 1) = j; omega)

/-- C7: the acquire loop never blocks indefinitely and fails only with the
typed timeout error: its result is always either a `ScopedLock` or the typed
`LockError.lockTimeout` (never any other exception), and when another live
owner holds the lock at every attempt, it retries with bounded jittered
backoff until `timeoutAt` elapses and then returns `LockError.lockTimeout`. -/
theorem acquire_never_blocks_typed (busy : Nat → Bool) (jitter : Nat → Nat)
    (maxBackoff timeoutAt n t : Nat) :
    ((∃ l, acquireLoop busy jitter maxBackoff timeoutAt n t = Except.ok l) ∨
      acquireLoop busy jitter maxBackoff timeoutAt n t
        = Except.error LockError.lockTimeout) ∧
    ((∀ u, busy u = true) →
      acquireLoop busy jitter maxBackoff timeoutAt n t
        = Except.error LockError.lockTimeout) := by
  constructor
  · cases hres : acquireLoop busy jitter maxBackoff timeoutAt n t with
    | ok l => exact Or.inl ⟨l, rfl⟩
    | error e => cases e; exact Or.inr rfl
  · intro hb
    exact acquireLoop_always_busy busy jitter maxBackoff timeoutAt hb
      (timeoutAt - t) n t (le_refl _)

theorem acquire_never_blocks_typed_witness :
    acquireLoop (fun _ => true) (fun _ => 0) 0 2 0 0
      = Except.error LockError.lockTimeout :=
  (acquire_never_blocks_typed (fun _ => true) (fun _ => 0) 0 2 0 0).2 (fun _ => rfl)

end Pretix
